import Mathlib

/-!
Verification of the Derivatives-Pricing repository: a shallow embedding of
`src/pricing/black_scholes.py`, `src/pricing/greeks.py` and
`src/pricing/monte_carlo.py` over the real numbers, together with proofs of
the specified properties of those functions.

The standard normal CDF and PDF (`scipy.stats.norm.cdf` / `norm.pdf`) are the
trusted external primitives of the design; they are embedded here as the
genuine mathematical objects, defined by integration of the Gaussian density,
so that analytic facts about them (symmetry, bounds, derivative) are proved
rather than assumed.
-/

noncomputable section

open MeasureTheory Filter Set Topology

namespace DerivPricing

/-- Standard normal probability density `φ`, the trusted primitive `norm.pdf`. -/
def normPDF (t : ℝ) : ℝ := (Real.sqrt (2 * Real.pi))⁻¹ * Real.exp (-t ^ 2 / 2)

/-- Standard normal cumulative distribution `Φ`, the trusted primitive `norm.cdf`. -/
def normCDF (x : ℝ) : ℝ := ∫ t in Iic x, normPDF t

lemma normPDF_pos (t : ℝ) : 0 < normPDF t := by
  unfold normPDF
  have h2π : (0:ℝ) < 2 * Real.pi := by positivity
  positivity

lemma normPDF_nonneg (t : ℝ) : 0 ≤ normPDF t := (normPDF_pos t).le

lemma normPDF_neg (t : ℝ) : normPDF (-t) = normPDF t := by
  unfold normPDF
  ring_nf

lemma normPDF_continuous : Continuous normPDF := by
  unfold normPDF
  exact continuous_const.mul
    (Real.continuous_exp.comp (((continuous_pow 2).neg).div_const 2))

lemma gauss_exp_eq : (fun t : ℝ => Real.exp (-t ^ 2 / 2))
    = fun t : ℝ => Real.exp (-(2⁻¹ : ℝ) * t ^ 2) := by
  funext t
  congr 1
  ring

lemma integrable_gauss_exp : Integrable (fun t : ℝ => Real.exp (-t ^ 2 / 2)) := by
  rw [gauss_exp_eq]
  exact integrable_exp_neg_mul_sq (by norm_num)

lemma normPDF_integrable : Integrable normPDF := by
  unfold normPDF
  exact integrable_gauss_exp.const_mul _

lemma integral_normPDF : ∫ t, normPDF t = 1 := by
  unfold normPDF
  rw [integral_mul_left, gauss_exp_eq, integral_gaussian]
  have h2π : (0:ℝ) < 2 * Real.pi := by positivity
  rw [show Real.pi / 2⁻¹ = 2 * Real.pi by ring]
  field_simp

lemma normCDF_nonneg (x : ℝ) : 0 ≤ normCDF x :=
  setIntegral_nonneg measurableSet_Iic fun t _ => normPDF_nonneg t

lemma normCDF_le_one (x : ℝ) : normCDF x ≤ 1 := by
  have h := setIntegral_le_integral (μ := volume) (s := Iic x) normPDF_integrable
    (Eventually.of_forall normPDF_nonneg)
  rw [integral_normPDF] at h
  exact h

lemma normCDF_neg (x : ℝ) : normCDF (-x) = 1 - normCDF x := by
  have hs : (∫ t in Iic (-x), normPDF t) = ∫ t in Iic (-x), normPDF (-t) := by
    simp [normPDF_neg]
  have hneg : (∫ t in Iic (-x), normPDF (-t)) = ∫ t in Ioi x, normPDF t := by
    rw [integral_comp_neg_Iic (-x) normPDF, neg_neg]
  have hsplit : (∫ t in Iic x, normPDF t) + (∫ t in Ioi x, normPDF t) = 1 := by
    rw [intervalIntegral.integral_Iic_add_Ioi normPDF_integrable.integrableOn
      normPDF_integrable.integrableOn, integral_normPDF]
  unfold normCDF
  rw [hs, hneg]
  linarith

lemma normCDF_add_neg (x : ℝ) : normCDF x + normCDF (-x) = 1 := by
  rw [normCDF_neg]; ring

lemma normCDF_sub_Iic (a b : ℝ) :
    normCDF b - normCDF a = ∫ t in a..b, normPDF t := by
  unfold normCDF
  exact intervalIntegral.integral_Iic_sub_Iic normPDF_integrable.integrableOn
    normPDF_integrable.integrableOn

lemma normCDF_hasDerivAt (x : ℝ) : HasDerivAt normCDF (normPDF x) x := by
  have h1 : HasDerivAt (fun u => ∫ t in (0:ℝ)..u, normPDF t) (normPDF x) x :=
    intervalIntegral.integral_hasDerivAt_right
      normPDF_integrable.intervalIntegrable
      (normPDF_continuous.stronglyMeasurableAtFilter _ _)
      normPDF_continuous.continuousAt
  have h2 : normCDF = fun u => normCDF 0 + ∫ t in (0:ℝ)..u, normPDF t := by
    funext u
    rw [← normCDF_sub_Iic 0 u]
    ring
  rw [h2]
  exact h1.const_add (normCDF 0)

lemma normCDF_tendsto_atBot : Tendsto normCDF atBot (𝓝 0) := by
  have h1 : Tendsto (fun b => ∫ t in b..(0:ℝ), normPDF t) atBot
      (𝓝 (∫ t in Iic (0:ℝ), normPDF t)) :=
    intervalIntegral_tendsto_integral_Iic 0 normPDF_integrable.integrableOn
      tendsto_id
  have h2 : normCDF = fun b => normCDF 0 - ∫ t in b..(0:ℝ), normPDF t := by
    funext b
    rw [← normCDF_sub_Iic b 0]
    ring
  rw [h2]
  have := (tendsto_const_nhds (x := normCDF 0) (f := atBot)).sub h1
  simpa [normCDF] using this

/-- A strictly monotone real function tending to `0` at `-∞` is positive. -/
lemma pos_of_strictMono_tendsto_zero {f : ℝ → ℝ} (hm : StrictMono f)
    (h0 : Tendsto f atBot (𝓝 0)) (x : ℝ) : 0 < f x := by
  have h1 : 0 ≤ f (x - 1) := by
    refine le_of_tendsto h0 ?_
    filter_upwards [eventually_le_atBot (x - 1)] with y hy
    exact hm.le_iff_le.2 hy
  have h2 : f (x - 1) < f x := hm (by linarith)
  linarith

lemma normCDF_strictMono : StrictMono normCDF := by
  apply strictMono_of_deriv_pos
  intro x
  rw [(normCDF_hasDerivAt x).deriv]
  exact normPDF_pos x

lemma normCDF_pos (x : ℝ) : 0 < normCDF x :=
  pos_of_strictMono_tendsto_zero normCDF_strictMono normCDF_tendsto_atBot x

/-!
The function `bsGain s m = e^m·Φ(m/s + s/2) − Φ(m/s − s/2)` is, up to the
positive factor `K·e^(−rT)`, the unclamped Black-Scholes call value written in
the forward log-moneyness `m` and total volatility `s`.  Its positivity shows
that the `max(price, 0)` clamp in the source never binds in the normal branch.
-/

/-- Normalized unclamped Black-Scholes call value. -/
def bsGain (s m : ℝ) : ℝ :=
  Real.exp m * normCDF (m / s + s / 2) - normCDF (m / s - s / 2)

lemma normPDF_reflect {s : ℝ} (hs : s ≠ 0) (m : ℝ) :
    normPDF (m / s - s / 2) = Real.exp m * normPDF (m / s + s / 2) := by
  unfold normPDF
  rw [mul_comm (Real.exp m), mul_assoc, ← Real.exp_add]
  congr 1
  field_simp
  ring

lemma bsGain_hasDerivAt {s : ℝ} (hs : 0 < s) (m : ℝ) :
    HasDerivAt (bsGain s) (Real.exp m * normCDF (m / s + s / 2)) m := by
  have hA : HasDerivAt (fun x : ℝ => x / s + s / 2) (1 / s) m :=
    ((hasDerivAt_id m).div_const s).add_const _
  have hB : HasDerivAt (fun x : ℝ => x / s - s / 2) (1 / s) m :=
    ((hasDerivAt_id m).div_const s).sub_const _
  have hΦA : HasDerivAt (fun x : ℝ => normCDF (x / s + s / 2))
      (normPDF (m / s + s / 2) * (1 / s)) m :=
    (normCDF_hasDerivAt (m / s + s / 2)).comp m hA
  have hΦB : HasDerivAt (fun x : ℝ => normCDF (x / s - s / 2))
      (normPDF (m / s - s / 2) * (1 / s)) m :=
    (normCDF_hasDerivAt (m / s - s / 2)).comp m hB
  have hexp : HasDerivAt Real.exp (Real.exp m) m := Real.hasDerivAt_exp m
  have h1 := (hexp.mul hΦA).sub hΦB
  convert h1 using 1
  rw [normPDF_reflect hs.ne' m]
  ring

lemma bsGain_strictMono {s : ℝ} (hs : 0 < s) : StrictMono (bsGain s) := by
  apply strictMono_of_deriv_pos
  intro m
  rw [(bsGain_hasDerivAt hs m).deriv]
  exact mul_pos (Real.exp_pos m) (normCDF_pos _)

lemma bsGain_tendsto_atBot {s : ℝ} (hs : 0 < s) :
    Tendsto (bsGain s) atBot (𝓝 0) := by
  have t1 : Tendsto (fun m => Real.exp m * normCDF (m / s + s / 2)) atBot (𝓝 0) := by
    apply squeeze_zero (fun m => mul_nonneg (Real.exp_pos m).le (normCDF_nonneg _))
      (fun m => mul_le_of_le_one_right (Real.exp_pos m).le (normCDF_le_one _))
    exact Real.tendsto_exp_atBot
  have hinner : Tendsto (fun m : ℝ => m / s - s / 2) atBot atBot := by
    have h1 : Tendsto (fun m : ℝ => m / s) atBot atBot :=
      tendsto_id.atBot_div_const hs
    simpa [sub_eq_add_neg] using tendsto_atBot_add_const_right atBot (-(s / 2)) h1
  have t2 : Tendsto (fun m => normCDF (m / s - s / 2)) atBot (𝓝 0) :=
    normCDF_tendsto_atBot.comp hinner
  simpa [bsGain] using t1.sub t2

lemma bsGain_pos {s : ℝ} (hs : 0 < s) (m : ℝ) : 0 < bsGain s m :=
  pos_of_strictMono_tendsto_zero (bsGain_strictMono hs) (bsGain_tendsto_atBot hs) m

/-- The unclamped put value is the call gain reflected in the log-moneyness. -/
lemma put_gain_eq (s m : ℝ) :
    normCDF (-(m / s - s / 2)) - Real.exp m * normCDF (-(m / s + s / 2))
      = Real.exp m * bsGain s (-m) := by
  unfold bsGain
  rw [show -m / s + s / 2 = -(m / s - s / 2) by ring,
    show -m / s - s / 2 = -(m / s + s / 2) by ring,
    mul_sub, ← mul_assoc, ← Real.exp_add]
  simp

/-!
Embedding of the source files.  `option_type` is a Python string compared
against the literal `"call"`; every other string falls into the `else`
branch of the source, exactly as in the Python code.
-/

/-- The recognized option type `"call"`. -/
def callStr : String := "call"

/-- The recognized option type `"put"`. -/
def putStr : String := "put"

/-- An unrecognized option type, used as a concrete invalid input. -/
def otherStr : String := "banana"

/-- Embeds `BlackScholesPricer.price` (src/src/pricing/black_scholes.py,
lines 52-76): three-way branch on expiry and volatility, normal-case
Black-Scholes formula clamped at zero. -/
def BlackScholesPricer.price (S K T r sigma : ℝ) (option_type : String) : ℝ :=
  if T ≤ 0 then
    if option_type = callStr then max (S - K) 0 else max (K - S) 0
  else if sigma ≤ 0 then
    if option_type = callStr then max (S - K * Real.exp (-r * T)) 0
    else max (K * Real.exp (-r * T) - S) 0
  else
    let d1 := (Real.log (S / K) + (r + 0.5 * sigma ^ 2) * T) / (sigma * Real.sqrt T)
    let d2 := d1 - sigma * Real.sqrt T
    let p :=
      if option_type = callStr then
        S * normCDF d1 - K * Real.exp (-r * T) * normCDF d2
      else
        K * Real.exp (-r * T) * normCDF (-d2) - S * normCDF (-d1)
    max p 0

/-- One element of `BlackScholesPricer.price_vectorized`
(src/src/pricing/black_scholes.py, lines 140-182): the value the disjoint
numpy mask assignments (`expired_mask`, `no_vol_mask`, `normal_mask`) give a
position, followed by the final `np.maximum(prices, 0)`. -/
def BlackScholesPricer.priceVecElem (r : ℝ) (option_type : String)
    (S K T sigma : ℝ) : ℝ :=
  let base :=
    if T ≤ 0 then
      if option_type = callStr then max (S - K) 0 else max (K - S) 0
    else if sigma ≤ 0 then
      if option_type = callStr then max (S - K * Real.exp (-r * T)) 0
      else max (K * Real.exp (-r * T) - S) 0
    else
      let d1 := (Real.log (S / K) + (r + 0.5 * sigma ^ 2) * T) / (sigma * Real.sqrt T)
      let d2 := d1 - sigma * Real.sqrt T
      if option_type = callStr then
        S * normCDF d1 - K * Real.exp (-r * T) * normCDF d2
      else
        K * Real.exp (-r * T) * normCDF (-d2) - S * normCDF (-d1)
  max base 0

/-- Embeds `BlackScholesPricer.price_vectorized` as the element-wise map the
numpy masked assignments perform over the four input arrays. -/
def BlackScholesPricer.price_vectorized (S K T sigma : List ℝ) (r : ℝ)
    (option_type : String) : List ℝ :=
  match S, K, T, sigma with
  | s :: S, k :: K, t :: T, v :: V =>
      BlackScholesPricer.priceVecElem r option_type s k t v ::
        BlackScholesPricer.price_vectorized S K T V r option_type
  | _, _, _, _ => []

/-- Embeds `GreeksCalculator._d1_d2` (src/src/pricing/greeks.py, lines 22-30). -/
def GreeksCalculator.d1_d2 (S K T r sigma : ℝ) : ℝ × ℝ :=
  if T ≤ 0 ∨ sigma ≤ 0 then (0, 0)
  else
    let d1 := (Real.log (S / K) + (r + 0.5 * sigma ^ 2) * T) / (sigma * Real.sqrt T)
    (d1, d1 - sigma * Real.sqrt T)

/-- Embeds `GreeksCalculator.delta` (src/src/pricing/greeks.py, lines 32-82). -/
def GreeksCalculator.delta (S K T r sigma : ℝ) (option_type : String) : ℝ :=
  if T ≤ 0 then
    if option_type = callStr then (if K < S then 1 else 0)
    else (if S < K then -1 else 0)
  else if sigma ≤ 0 then 0
  else
    let d1 := (GreeksCalculator.d1_d2 S K T r sigma).1
    if option_type = callStr then normCDF d1 else -normCDF (-d1)

/-- Embeds `np.mean` on a one-dimensional array. -/
def npMean (xs : List ℝ) : ℝ := xs.sum / (xs.length : ℝ)

/-- Embeds `np.std` on a one-dimensional array: the population standard
deviation (`ddof = 0`), dividing the sum of squared deviations by `n`. -/
def npStd (xs : List ℝ) : ℝ :=
  Real.sqrt (((xs.map fun x => (x - npMean xs) ^ 2).sum) / (xs.length : ℝ))

/-- The Bessel-corrected sample standard deviation (`ddof = 1`), dividing the
sum of squared deviations by `n - 1`; what `np.std(xs, ddof=1)` would compute. -/
def sampleStd (xs : List ℝ) : ℝ :=
  Real.sqrt (((xs.map fun x => (x - npMean xs) ^ 2).sum) / ((xs.length : ℝ) - 1))

/-- Embeds the terminal-price computation of one simulated path in
`MonteCarloPricer.price` (src/src/pricing/monte_carlo.py, lines 84-99):
`row` is one row of the draw matrix `Z`.  In the multi-step branch the drift
`(r - 0.5·sigma²)·dt` enters once, before the loop over steps, exactly as in
the source. -/
def MonteCarloPricer.terminal (S T r sigma : ℝ) (n_steps : ℤ)
    (row : List ℝ) : ℝ :=
  let dt := T / (n_steps : ℝ)
  if n_steps = 1 then
    S * Real.exp ((r - 0.5 * sigma ^ 2) * T + sigma * Real.sqrt T * row.headI)
  else
    Real.exp (Real.log S + (r - 0.5 * sigma ^ 2) * dt
      + (row.map fun z => sigma * Real.sqrt dt * z).sum)

/-- Embeds the discounted-payoff array of `MonteCarloPricer.price`
(src/src/pricing/monte_carlo.py, lines 101-108). -/
def MonteCarloPricer.discountedPayoffs (S K T r sigma : ℝ)
    (option_type : String) (n_steps : ℤ) (Z : List (List ℝ)) : List ℝ :=
  ((Z.map (MonteCarloPricer.terminal S T r sigma n_steps)).map fun st =>
      if option_type = callStr then max (st - K) 0 else max (K - st) 0).map
    fun p => Real.exp (-r * T) * p

/-- Embeds `MonteCarloPricer.price` (src/src/pricing/monte_carlo.py, lines
29-114) with the normal draws `Z` passed explicitly (one row per simulation,
one column per step).  Note the source performs no validation of
`n_simulations` or `n_steps`. -/
def MonteCarloPricer.price (S K T r sigma : ℝ) (option_type : String)
    (n_simulations n_steps : ℤ) (Z : List (List ℝ)) : ℝ × ℝ :=
  if T ≤ 0 then
    if option_type = callStr then (max (S - K) 0, 0) else (max (K - S) 0, 0)
  else if sigma ≤ 0 then
    (if option_type = callStr then max (S - K * Real.exp (-r * T)) 0
     else max (K * Real.exp (-r * T) - S) 0, 0)
  else
    let discounted := MonteCarloPricer.discountedPayoffs S K T r sigma
      option_type n_steps Z
    (npMean discounted, npStd discounted / Real.sqrt (n_simulations : ℝ))

/-!
Spec-side comparison definitions, written from the claims' own wording, to be
proved equal to (or different from) the source embeddings above.
-/

/-- The scalar analytical price as claim C1 words it: intrinsic value when
`T ≤ 0`, discounted intrinsic value when `sigma ≤ 0`, else the Black-Scholes
formula with `d1 = (ln(S/K) + (r + sigma²/2)·T)/(sigma·√T)` and
`d2 = d1 - sigma·√T`, clamped below by zero. -/
def specPrice (S K T r sigma : ℝ) (option_type : String) : ℝ :=
  if T ≤ 0 then
    if option_type = callStr then max (S - K) 0 else max (K - S) 0
  else if sigma ≤ 0 then
    if option_type = callStr then max (S - K * Real.exp (-r * T)) 0
    else max (K * Real.exp (-r * T) - S) 0
  else
    let d1 := (Real.log (S / K) + (r + sigma ^ 2 / 2) * T) / (sigma * Real.sqrt T)
    let d2 := d1 - sigma * Real.sqrt T
    max (if option_type = callStr then
        S * normCDF d1 - K * Real.exp (-r * T) * normCDF d2
      else
        K * Real.exp (-r * T) * normCDF (-d2) - S * normCDF (-d1)) 0

/-- Delta as claim C8 words it. -/
def specDelta (S K T r sigma : ℝ) (option_type : String) : ℝ :=
  if T ≤ 0 then
    if option_type = callStr then (if K < S then 1 else 0)
    else (if S < K then -1 else 0)
  else if sigma ≤ 0 then 0
  else
    let d1 := (Real.log (S / K) + (r + sigma ^ 2 / 2) * T) / (sigma * Real.sqrt T)
    if option_type = callStr then normCDF d1 else -normCDF (-d1)

/-- The multi-step terminal price as claim C2 asserts it: terminal log-price
`ln(S) + (r - sigma²/2)·T + sigma·√dt·(sum of the draws)` with
`dt = T/n_steps`. -/
def specTerminal (S T r sigma : ℝ) (n_steps : ℤ) (row : List ℝ) : ℝ :=
  Real.exp (Real.log S + (r - 0.5 * sigma ^ 2) * T
    + sigma * Real.sqrt (T / (n_steps : ℝ)) * row.sum)

/-! Claim theorems. -/

/-- Claim C1: for every `S > 0`, `K > 0` and option type (call or put), the
scalar analytical price follows the three-way branch of the specification:
intrinsic value when `T ≤ 0`, discounted intrinsic value when `sigma ≤ 0`,
else the Black-Scholes formula clamped below by zero. -/
theorem claim1_price_formula (S K T r sigma : ℝ) (option_type : String)
    (hS : 0 < S) (hK : 0 < K)
    (hot : option_type = callStr ∨ option_type = putStr) :
    BlackScholesPricer.price S K T r sigma option_type
      = specPrice S K T r sigma option_type := by
  unfold BlackScholesPricer.price specPrice
  rw [show r + 0.5 * sigma ^ 2 = r + sigma ^ 2 / 2 by ring]

theorem claim1_price_formula_w :
    0 < (2:ℝ) ∧ 0 < (1:ℝ) ∧
      BlackScholesPricer.price 2 1 3 0.05 0.4 callStr
        = specPrice 2 1 3 0.05 0.4 callStr :=
  ⟨by norm_num, by norm_num,
    claim1_price_formula 2 1 3 0.05 0.4 callStr (by norm_num) (by norm_num)
      (Or.inl rfl)⟩

/-- Claim C8: Delta follows the specification's three-way branch: at expiry a
unit indicator of moneyness, zero without volatility, else `Φ(d1)` for a call
and `-Φ(-d1)` for a put. -/
theorem claim8_delta_formula (S K T r sigma : ℝ) (option_type : String)
    (hS : 0 < S) (hK : 0 < K) :
    GreeksCalculator.delta S K T r sigma option_type
      = specDelta S K T r sigma option_type := by
  unfold GreeksCalculator.delta specDelta GreeksCalculator.d1_d2
  rw [show r + 0.5 * sigma ^ 2 = r + sigma ^ 2 / 2 by ring]
  by_cases h1 : T ≤ 0
  · simp [h1]
  · by_cases h2 : sigma ≤ 0
    · simp [h1, h2]
    · simp [h1, h2]

theorem claim8_delta_formula_w :
    0 < (3:ℝ) ∧ 0 < (2:ℝ) ∧
      GreeksCalculator.delta 3 2 1 0.02 0.3 putStr
        = specDelta 3 2 1 0.02 0.3 putStr :=
  ⟨by norm_num, by norm_num,
    claim8_delta_formula 3 2 1 0.02 0.3 putStr (by norm_num) (by norm_num)⟩

/-- Claim C4 counterexample: an unrecognized option type (`"banana"`) does not
raise; every public operation returns a numeric result (the put value). -/
theorem claim4_counterexample :
    BlackScholesPricer.price 1 2 0 0 0 otherStr = 1
    ∧ GreeksCalculator.delta 1 2 0 0 0 otherStr = -1
    ∧ MonteCarloPricer.price 1 2 0 0 0 otherStr 1 1 [[0]] = (1, 0) := by
  have hother : ¬ (otherStr = callStr) := by decide
  refine ⟨?_, ?_, ?_⟩ <;>
    simp [BlackScholesPricer.price, GreeksCalculator.delta,
      MonteCarloPricer.price, hother] <;> norm_num

/-- Claim C4 amended: an `option_type` other than `"call"` is silently treated
as a put by every operation (the `else` branch); no invalid-argument error is
raised. -/
theorem claim4_amended_put_fallback (S K T r sigma : ℝ) (option_type : String)
    (n_simulations n_steps : ℤ) (Z : List (List ℝ))
    (hot : option_type ≠ callStr) :
    BlackScholesPricer.price S K T r sigma option_type
        = BlackScholesPricer.price S K T r sigma putStr
    ∧ GreeksCalculator.delta S K T r sigma option_type
        = GreeksCalculator.delta S K T r sigma putStr
    ∧ MonteCarloPricer.price S K T r sigma option_type n_simulations n_steps Z
        = MonteCarloPricer.price S K T r sigma putStr n_simulations n_steps Z := by
  have hput : ¬ (putStr = callStr) := by decide
  refine ⟨?_, ?_, ?_⟩ <;>
    simp [BlackScholesPricer.price, GreeksCalculator.delta,
      MonteCarloPricer.price, MonteCarloPricer.discountedPayoffs, hot, hput]

theorem claim4_amended_put_fallback_w :
    otherStr ≠ callStr ∧
      (BlackScholesPricer.price 5 3 2 0 1 otherStr
          = BlackScholesPricer.price 5 3 2 0 1 putStr
        ∧ GreeksCalculator.delta 5 3 2 0 1 otherStr
          = GreeksCalculator.delta 5 3 2 0 1 putStr
        ∧ MonteCarloPricer.price 5 3 2 0 1 otherStr 2 1 [[1]]
          = MonteCarloPricer.price 5 3 2 0 1 putStr 2 1 [[1]]) :=
  ⟨by decide, claim4_amended_put_fallback 5 3 2 0 1 otherStr 2 1 [[1]] (by decide)⟩

/-- Claim C5 counterexample: calls with `n_simulations ≤ 0` or `n_steps ≤ 0`
are not rejected; with `T ≤ 0` the code returns a numeric
`(price, standard_error)` pair regardless of those arguments. -/
theorem claim5_counterexample :
    MonteCarloPricer.price 2 1 0 0 1 callStr 0 1 [] = (1, 0)
    ∧ MonteCarloPricer.price 2 1 0 0 1 callStr 5 (-3) [] = (1, 0)
    ∧ MonteCarloPricer.price 2 1 0 0 1 callStr (-5) 0 [] = (1, 0) := by
  refine ⟨?_, ?_, ?_⟩ <;>
    simp [MonteCarloPricer.price] <;> norm_num

/-- Claim C5 amended: the implementation never validates `n_simulations` or
`n_steps`; in the degenerate branch (`T ≤ 0`) it returns the closed-form
numeric result no matter how non-positive those arguments are. -/
theorem claim5_amended_no_validation (S K T r sigma : ℝ) (option_type : String)
    (n_simulations n_steps : ℤ) (Z : List (List ℝ)) (hT : T ≤ 0)
    (hn : n_simulations ≤ 0 ∨ n_steps ≤ 0) :
    MonteCarloPricer.price S K T r sigma option_type n_simulations n_steps Z
      = (if option_type = callStr then max (S - K) 0 else max (K - S) 0, 0) := by
  unfold MonteCarloPricer.price
  rw [if_pos hT]
  split_ifs <;> rfl

theorem claim5_amended_no_validation_w :
    (0:ℝ) ≤ 0 ∧ ((0:ℤ) ≤ 0 ∨ (1:ℤ) ≤ 0) ∧
      MonteCarloPricer.price 3 1 0 0 1 callStr 0 1 []
        = (if callStr = callStr then max ((3:ℝ) - 1) 0 else max (1 - (3:ℝ)) 0, 0) :=
  ⟨le_refl 0, Or.inl (le_refl 0),
    claim5_amended_no_validation 3 1 0 0 1 callStr 0 1 [] (le_refl 0)
      (Or.inl (le_refl 0))⟩

/-- Claim C2: evaluated at `S = 1, T = 1, r = 0, sigma = 1, n_steps = 2` with
both draws zero, the source's multi-step terminal price differs from the
terminal price the claim asserts: the code adds the drift `(r - sigma²/2)·dt`
once in total instead of once per step, so the terminal log-price carries
drift `(r - sigma²/2)·T/n_steps` instead of `(r - sigma²/2)·T`. -/
theorem claim2_code_divergence :
    MonteCarloPricer.terminal 1 1 0 1 2 [0, 0] ≠ specTerminal 1 1 0 1 2 [0, 0] := by
  have hc : MonteCarloPricer.terminal 1 1 0 1 2 [0, 0] = Real.exp (-(1/4)) := by
    unfold MonteCarloPricer.terminal
    norm_num [Real.log_one]
  have hs : specTerminal 1 1 0 1 2 [0, 0] = Real.exp (-(1/2)) := by
    unfold specTerminal
    norm_num [Real.log_one]
  rw [hc, hs, ne_eq, Real.exp_eq_exp]
  norm_num

/-- Claim C3 counterexample: a two-sample run whose discounted payoffs are
`[0, 2]`: the source returns standard error `1/√2` (population standard
deviation over `√n`), not the Bessel-corrected `√2/√2 = 1` the claim asserts. -/
theorem claim3_counterexample :
    (MonteCarloPricer.price 2 2 1 0 1 callStr 2 1
        [[0.5], [0.5 + Real.log 2]]).2
      ≠ sampleStd (MonteCarloPricer.discountedPayoffs 2 2 1 0 1 callStr 1
          [[0.5], [0.5 + Real.log 2]]) / Real.sqrt ((2:ℤ) : ℝ) := by
  have hdp : MonteCarloPricer.discountedPayoffs 2 2 1 0 1 callStr 1
      [[0.5], [0.5 + Real.log 2]] = [0, 2] := by
    unfold MonteCarloPricer.discountedPayoffs MonteCarloPricer.terminal
    have hlog : Real.exp (Real.log 2) = 2 := Real.exp_log (by norm_num)
    norm_num [Real.sqrt_one, hlog]
  have hprice : (MonteCarloPricer.price 2 2 1 0 1 callStr 2 1
      [[0.5], [0.5 + Real.log 2]]).2 = 1 / Real.sqrt 2 := by
    unfold MonteCarloPricer.price
    rw [if_neg (by norm_num), if_neg (by norm_num), hdp]
    unfold npStd npMean
    norm_num
  have hsample : sampleStd [(0:ℝ), 2] = Real.sqrt 2 := by
    unfold sampleStd npMean
    norm_num
  rw [hprice, hdp, hsample]
  have h2 : (1:ℝ) < Real.sqrt 2 := by
    rw [show (1:ℝ) = Real.sqrt 1 by simp]
    exact Real.sqrt_lt_sqrt (by norm_num) (by norm_num)
  have hne : Real.sqrt 2 ≠ 0 := by positivity
  rw [show Real.sqrt ((2:ℤ) : ℝ) = Real.sqrt 2 by norm_num, div_self hne]
  intro h
  rw [div_eq_one_iff_eq hne] at h
  linarith

/-- Claim C3 amended: in the normal branch the standard error returned is the
population standard deviation (`np.std`, `ddof = 0`) of the discounted
payoffs divided by `√n_simulations`, not the Bessel-corrected sample standard
deviation. -/
theorem claim3_amended_population_std (S K T r sigma : ℝ) (option_type : String)
    (n_simulations n_steps : ℤ) (Z : List (List ℝ))
    (hT : 0 < T) (hsig : 0 < sigma) :
    (MonteCarloPricer.price S K T r sigma option_type n_simulations n_steps Z).2
      = npStd (MonteCarloPricer.discountedPayoffs S K T r sigma option_type
          n_steps Z) / Real.sqrt ((n_simulations : ℤ) : ℝ) := by
  unfold MonteCarloPricer.price
  rw [if_neg (not_le.2 hT), if_neg (not_le.2 hsig)]

theorem claim3_amended_population_std_w :
    0 < (1:ℝ) ∧
      (MonteCarloPricer.price 1 1 1 0 1 callStr 1 1 [[0]]).2
        = npStd (MonteCarloPricer.discountedPayoffs 1 1 1 0 1 callStr 1 [[0]])
          / Real.sqrt (((1:ℤ) : ℤ) : ℝ) :=
  ⟨by norm_num,
    claim3_amended_population_std 1 1 1 0 1 callStr 1 1 [[0]]
      (by norm_num) (by norm_num)⟩

lemma npMean_nonneg {xs : List ℝ} (h : ∀ x ∈ xs, 0 ≤ x) : 0 ≤ npMean xs :=
  div_nonneg (List.sum_nonneg h) (Nat.cast_nonneg _)

lemma discountedPayoffs_nonneg (S K T r sigma : ℝ) (option_type : String)
    (n_steps : ℤ) (Z : List (List ℝ)) :
    ∀ x ∈ MonteCarloPricer.discountedPayoffs S K T r sigma option_type n_steps Z,
      0 ≤ x := by
  intro x hx
  unfold MonteCarloPricer.discountedPayoffs at hx
  simp only [List.mem_map] at hx
  obtain ⟨p, ⟨st, _, hst⟩, hp⟩ := hx
  subst hp
  subst hst
  apply mul_nonneg (Real.exp_pos _).le
  split_ifs <;> exact le_max_right _ _

/-- Claim C9: the analytical price is non-negative in every branch, and for
every fixed draw matrix the Monte Carlo estimated price is non-negative in
every branch. -/
theorem claim9_nonneg (S K T r sigma : ℝ) (option_type : String)
    (n_simulations n_steps : ℤ) (Z : List (List ℝ)) (hS : 0 < S) (hK : 0 < K) :
    0 ≤ BlackScholesPricer.price S K T r sigma option_type
    ∧ 0 ≤ (MonteCarloPricer.price S K T r sigma option_type
        n_simulations n_steps Z).1 := by
  constructor
  · unfold BlackScholesPricer.price
    split_ifs <;> exact le_max_right _ _
  · unfold MonteCarloPricer.price
    split_ifs
    · exact le_max_right _ _
    · exact le_max_right _ _
    · exact le_max_right _ _
    · exact le_max_right _ _
    · exact npMean_nonneg (discountedPayoffs_nonneg S K T r sigma option_type
        n_steps Z)

theorem claim9_nonneg_w :
    0 < (4:ℝ) ∧ 0 < (5:ℝ) ∧
      (0 ≤ BlackScholesPricer.price 4 5 1 0.01 0.2 callStr
        ∧ 0 ≤ (MonteCarloPricer.price 4 5 1 0.01 0.2 callStr 1 1 [[0]]).1) :=
  ⟨by norm_num, by norm_num,
    claim9_nonneg 4 5 1 0.01 0.2 callStr 1 1 [[0]] (by norm_num) (by norm_num)⟩

/-- Claim C10: in every branch, the Delta of a call lies in `[0, 1]` and the
Delta of a put lies in `[-1, 0]`. -/
theorem claim10_delta_bounds (S K T r sigma : ℝ) (hS : 0 < S) (hK : 0 < K) :
    (0 ≤ GreeksCalculator.delta S K T r sigma callStr
      ∧ GreeksCalculator.delta S K T r sigma callStr ≤ 1)
    ∧ (-1 ≤ GreeksCalculator.delta S K T r sigma putStr
      ∧ GreeksCalculator.delta S K T r sigma putStr ≤ 0) := by
  have hput : ¬ (putStr = callStr) := by decide
  refine ⟨⟨?_, ?_⟩, ⟨?_, ?_⟩⟩ <;>
    simp only [GreeksCalculator.delta, hput, eq_self_iff_true, if_true,
      if_false] <;>
    split_ifs <;>
    first
      | exact normCDF_nonneg _
      | exact normCDF_le_one _
      | exact neg_le_neg (normCDF_le_one _)
      | exact neg_nonpos.2 (normCDF_nonneg _)
      | norm_num [normCDF_nonneg, normCDF_le_one]

theorem claim10_delta_bounds_w :
    0 < (7:ℝ) ∧ 0 < (6:ℝ) ∧
      ((0 ≤ GreeksCalculator.delta 7 6 2 0.03 0.25 callStr
        ∧ GreeksCalculator.delta 7 6 2 0.03 0.25 callStr ≤ 1)
      ∧ (-1 ≤ GreeksCalculator.delta 7 6 2 0.03 0.25 putStr
        ∧ GreeksCalculator.delta 7 6 2 0.03 0.25 putStr ≤ 0)) :=
  ⟨by norm_num, by norm_num,
    claim10_delta_bounds 7 6 2 0.03 0.25 (by norm_num) (by norm_num)⟩

lemma priceVecElem_eq_price (r : ℝ) (option_type : String) (S K T sigma : ℝ) :
    BlackScholesPricer.priceVecElem r option_type S K T sigma
      = BlackScholesPricer.price S K T r sigma option_type := by
  simp only [BlackScholesPricer.priceVecElem, BlackScholesPricer.price]
  split_ifs <;> first
    | rfl
    | exact max_eq_left (le_max_right _ _)

lemma price_vectorized_length (r : ℝ) (option_type : String) :
    ∀ (S K T V : List ℝ), K.length = S.length → T.length = S.length →
      V.length = S.length →
      (BlackScholesPricer.price_vectorized S K T V r option_type).length
        = S.length
  | [], _, _, _, _, _, _ => by
      simp [BlackScholesPricer.price_vectorized]
  | s :: S, K, T, V, hK, hT, hV => by
      cases K with
      | nil => simp at hK
      | cons k K =>
        cases T with
        | nil => simp at hT
        | cons t T =>
          cases V with
          | nil => simp at hV
          | cons v V =>
            simp only [BlackScholesPricer.price_vectorized, List.length_cons]
            rw [price_vectorized_length r option_type S K T V
              (by simpa using hK) (by simpa using hT) (by simpa using hV)]

lemma price_vectorized_getD (r : ℝ) (option_type : String) :
    ∀ (S K T V : List ℝ) (i : ℕ), K.length = S.length → T.length = S.length →
      V.length = S.length → i < S.length →
      (BlackScholesPricer.price_vectorized S K T V r option_type).getD i 0
        = BlackScholesPricer.price (S.getD i 0) (K.getD i 0) (T.getD i 0) r
            (V.getD i 0) option_type
  | [], _, _, _, i, _, _, _, hi => by simp at hi
  | s :: S, K, T, V, i, hK, hT, hV, hi => by
      cases K with
      | nil => simp at hK
      | cons k K =>
        cases T with
        | nil => simp at hT
        | cons t T =>
          cases V with
          | nil => simp at hV
          | cons v V =>
            cases i with
            | zero =>
                simp only [BlackScholesPricer.price_vectorized,
                  List.getD_cons_zero]
                exact priceVecElem_eq_price r option_type s k t v
            | succ i =>
                simp only [BlackScholesPricer.price_vectorized,
                  List.getD_cons_succ]
                exact price_vectorized_getD r option_type S K T V i
                  (by simpa using hK) (by simpa using hT) (by simpa using hV)
                  (by simpa using hi)

/-- Claim C7: the vectorized analytical price has the input's length and its
`i`-th element equals the scalar analytical price of the `i`-th inputs; each
element is routed independently through the same three-way branch. -/
theorem claim7_vectorized_refines_scalar (S K T sigma : List ℝ) (r : ℝ)
    (option_type : String) (i : ℕ)
    (hK : K.length = S.length) (hT : T.length = S.length)
    (hsig : sigma.length = S.length)
    (hpos : ∀ j, j < S.length → 0 < S.getD j 0 ∧ 0 < K.getD j 0)
    (hi : i < S.length) :
    (BlackScholesPricer.price_vectorized S K T sigma r option_type).length
        = S.length
    ∧ (BlackScholesPricer.price_vectorized S K T sigma r option_type).getD i 0
        = BlackScholesPricer.price (S.getD i 0) (K.getD i 0) (T.getD i 0) r
            (sigma.getD i 0) option_type :=
  ⟨price_vectorized_length r option_type S K T sigma hK hT hsig,
    price_vectorized_getD r option_type S K T sigma i hK hT hsig hi⟩

theorem claim7_vectorized_refines_scalar_w :
    (BlackScholesPricer.price_vectorized [2] [1] [0] [1] 0 callStr).length
        = ([2] : List ℝ).length
    ∧ (BlackScholesPricer.price_vectorized [2] [1] [0] [1] 0 callStr).getD 0 0
        = BlackScholesPricer.price (([2] : List ℝ).getD 0 0)
            (([1] : List ℝ).getD 0 0) (([0] : List ℝ).getD 0 0) 0
            (([1] : List ℝ).getD 0 0) callStr :=
  claim7_vectorized_refines_scalar [2] [1] [0] [1] 0 callStr 0 rfl rfl rfl
    (by
      intro j hj
      have hj0 : j = 0 := by simpa using Nat.lt_one_iff.1 (by simpa using hj)
      subst hj0
      norm_num)
    (by norm_num)

lemma log_forward (S K T r : ℝ) (hS : 0 < S) (hK : 0 < K) :
    Real.log (S / (K * Real.exp (-r * T))) = Real.log (S / K) + r * T := by
  rw [Real.log_div hS.ne' (mul_pos hK (Real.exp_pos _)).ne',
    Real.log_mul hK.ne' (Real.exp_pos _).ne', Real.log_exp,
    Real.log_div hS.ne' hK.ne']
  ring

lemma spot_eq_forward (S K T r : ℝ) (hS : 0 < S) (hK : 0 < K) :
    S = K * Real.exp (-r * T)
      * Real.exp (Real.log (S / (K * Real.exp (-r * T)))) := by
  have hF : 0 < K * Real.exp (-r * T) := mul_pos hK (Real.exp_pos _)
  rw [Real.exp_log (div_pos hS hF)]
  field_simp

/-- The source's `d1` equals `m/s + s/2` in forward log-moneyness
`m = ln(S/(K·e^(-rT)))` and total volatility `s = sigma·√T`. -/
lemma d1_eq_gain_arg (S K T r sigma : ℝ) (hS : 0 < S) (hK : 0 < K)
    (hT : 0 < T) (hsig : 0 < sigma) :
    (Real.log (S / K) + (r + 0.5 * sigma ^ 2) * T) / (sigma * Real.sqrt T)
      = Real.log (S / (K * Real.exp (-r * T))) / (sigma * Real.sqrt T)
        + sigma * Real.sqrt T / 2 := by
  rw [log_forward S K T r hS hK]
  have hu : (0:ℝ) < Real.sqrt T := Real.sqrt_pos.2 hT
  have huu : Real.sqrt T * Real.sqrt T = T := Real.mul_self_sqrt hT.le
  set u := Real.sqrt T with hu_def
  rw [← huu]
  field_simp
  ring

/-- The unclamped normal-branch call value equals
`K·e^(-rT) · bsGain s m`. -/
lemma call_unclamped_eq (S K T r sigma : ℝ) (hS : 0 < S) (hK : 0 < K)
    (hT : 0 < T) (hsig : 0 < sigma) :
    S * normCDF ((Real.log (S / K) + (r + 0.5 * sigma ^ 2) * T)
        / (sigma * Real.sqrt T))
      - K * Real.exp (-r * T)
        * normCDF ((Real.log (S / K) + (r + 0.5 * sigma ^ 2) * T)
            / (sigma * Real.sqrt T) - sigma * Real.sqrt T)
      = K * Real.exp (-r * T) * bsGain (sigma * Real.sqrt T)
          (Real.log (S / (K * Real.exp (-r * T)))) := by
  have hSm := spot_eq_forward S K T r hS hK
  rw [d1_eq_gain_arg S K T r sigma hS hK hT hsig,
    show ∀ a b : ℝ, a / b + b / 2 - b = a / b - b / 2 from fun a b => by ring]
  unfold bsGain
  linear_combination normCDF (Real.log (S / (K * Real.exp (-r * T)))
    / (sigma * Real.sqrt T) + sigma * Real.sqrt T / 2) * hSm

/-- The unclamped normal-branch put value equals
`K·e^(-rT) · e^m · bsGain s (-m)`. -/
lemma put_unclamped_eq (S K T r sigma : ℝ) (hS : 0 < S) (hK : 0 < K)
    (hT : 0 < T) (hsig : 0 < sigma) :
    K * Real.exp (-r * T)
        * normCDF (-((Real.log (S / K) + (r + 0.5 * sigma ^ 2) * T)
            / (sigma * Real.sqrt T) - sigma * Real.sqrt T))
      - S * normCDF (-((Real.log (S / K) + (r + 0.5 * sigma ^ 2) * T)
          / (sigma * Real.sqrt T)))
      = K * Real.exp (-r * T)
          * (Real.exp (Real.log (S / (K * Real.exp (-r * T))))
            * bsGain (sigma * Real.sqrt T)
              (-Real.log (S / (K * Real.exp (-r * T))))) := by
  have hSm := spot_eq_forward S K T r hS hK
  rw [d1_eq_gain_arg S K T r sigma hS hK hT hsig,
    show ∀ a b : ℝ, a / b + b / 2 - b = a / b - b / 2 from fun a b => by ring]
  have hpg := put_gain_eq (sigma * Real.sqrt T)
    (Real.log (S / (K * Real.exp (-r * T))))
  linear_combination (K * Real.exp (-r * T)) * hpg
    - normCDF (-(Real.log (S / (K * Real.exp (-r * T)))
        / (sigma * Real.sqrt T) + sigma * Real.sqrt T / 2)) * hSm

/-- The algebraic core of put-call parity for the gain function. -/
lemma bsGain_parity (s m : ℝ) :
    bsGain s m - Real.exp m * bsGain s (-m) = Real.exp m - 1 := by
  unfold bsGain
  rw [show -m / s + s / 2 = -(m / s - s / 2) by ring,
    show -m / s - s / 2 = -(m / s + s / 2) by ring]
  have hA := normCDF_add_neg (m / s + s / 2)
  have hB := normCDF_add_neg (m / s - s / 2)
  have he : Real.exp m * Real.exp (-m) = 1 := by
    rw [← Real.exp_add]
    simp
  linear_combination Real.exp m * hA - hB - normCDF (-(m / s - s / 2)) * he

/-- Claim C6: put-call parity for the analytical engine in exact real
arithmetic: `Call - Put = S - K·e^(-rT)` whenever `S, K, T, sigma > 0`.  The
proof shows the `max(·, 0)` clamps never bind because both unclamped normal
branch values are positive. -/
theorem claim6_put_call_parity (S K T r sigma : ℝ)
    (hS : 0 < S) (hK : 0 < K) (hT : 0 < T) (hsig : 0 < sigma) :
    BlackScholesPricer.price S K T r sigma callStr
      - BlackScholesPricer.price S K T r sigma putStr
      = S - K * Real.exp (-r * T) := by
  have hTn : ¬ T ≤ 0 := not_le.2 hT
  have hsn : ¬ sigma ≤ 0 := not_le.2 hsig
  have hput : ¬ (putStr = callStr) := by decide
  have hs : 0 < sigma * Real.sqrt T := mul_pos hsig (Real.sqrt_pos.2 hT)
  have hF : 0 < K * Real.exp (-r * T) := mul_pos hK (Real.exp_pos _)
  have hSm := spot_eq_forward S K T r hS hK
  have hcall : BlackScholesPricer.price S K T r sigma callStr
      = max (K * Real.exp (-r * T) * bsGain (sigma * Real.sqrt T)
          (Real.log (S / (K * Real.exp (-r * T))))) 0 := by
    simp only [BlackScholesPricer.price, if_neg hTn, if_neg hsn,
      eq_self_iff_true, if_true]
    rw [call_unclamped_eq S K T r sigma hS hK hT hsig]
  have hputp : BlackScholesPricer.price S K T r sigma putStr
      = max (K * Real.exp (-r * T)
          * (Real.exp (Real.log (S / (K * Real.exp (-r * T))))
            * bsGain (sigma * Real.sqrt T)
              (-Real.log (S / (K * Real.exp (-r * T)))))) 0 := by
    simp only [BlackScholesPricer.price, if_neg hTn, if_neg hsn, if_neg hput]
    rw [put_unclamped_eq S K T r sigma hS hK hT hsig]
  rw [hcall, hputp,
    max_eq_left (mul_nonneg hF.le (bsGain_pos hs _).le),
    max_eq_left (mul_nonneg hF.le
      (mul_nonneg (Real.exp_pos _).le (bsGain_pos hs _).le))]
  have hpar := bsGain_parity (sigma * Real.sqrt T)
    (Real.log (S / (K * Real.exp (-r * T))))
  linear_combination (K * Real.exp (-r * T)) * hpar - hSm

theorem claim6_put_call_parity_w :
    0 < (2:ℝ) ∧ 0 < (1:ℝ) ∧ 0 < (1:ℝ) ∧ 0 < (1:ℝ) ∧
      BlackScholesPricer.price 2 1 1 0 1 callStr
        - BlackScholesPricer.price 2 1 1 0 1 putStr
        = 2 - 1 * Real.exp (-0 * 1) :=
  ⟨by norm_num, by norm_num, by norm_num, by norm_num,
    claim6_put_call_parity 2 1 1 0 1 (by norm_num) (by norm_num) (by norm_num)
      (by norm_num)⟩

end DerivPricing
